import Mathlib

/-!
Shallow embedding of the tile-texture compositing core of `pixed`
(`src/tiles.rs`), together with theorems checking the natural-language
specification against it.

Modelling conventions:
* Rust `usize`/`u8` values are `Nat`; Rust `u32` arithmetic is `Nat`
  arithmetic reduced `% 2^32` at every operation where overflow can occur.
* A Rust indexing expression `v[i]` that panics when out of range is
  modelled with `List.get?`, so a panic becomes `none`; a function whose
  Rust body can panic returns `Option _`.
* `Vec<T>` is `List T`, `UVec2` is `Nat × Nat`.
-/

namespace Pixed

/-- `TILE_SIZE` constant from `tiles.rs`. -/
def TILE_SIZE : Nat := 20

/-- `HALF_TILE_SIZE` constant from `tiles.rs`. -/
def HALF_TILE_SIZE : Nat := TILE_SIZE / 2

/-- `PIXEL_SIZE` constant from `tiles.rs`. -/
def PIXEL_SIZE : Nat := 4

/-- The `u32` wrap modulus. -/
def u32Mod : Nat := 4294967296

/-- `TilePixel` enum from `tiles.rs` (default is `Up`). -/
inductive TilePixel where
  | Up
  | Neutral
  | Down
  | None
deriving DecidableEq, Repr, Inhabited

/-- `TileLayer` struct: an ordered sequence of categorical pixels. -/
structure TileLayer where
  colors : List TilePixel
deriving DecidableEq, Repr, Inhabited

/-- The variant-index table inside `SubTile::get` (the `match` on
`(horizontal, vertical, diagonal)`). -/
def variantIdx : Bool → Bool → Bool → Nat
  | true, true, true => 4
  | true, true, false => 3
  | true, false, _ => 2
  | false, true, _ => 1
  | false, false, true => 0
  | false, false, false => 0

/-- `SubTile` struct from `tiles.rs`: a quadrant index plus the five
adjacency-variant pixel grids. -/
structure SubTile where
  quadrant : Nat
  data : List TileLayer
deriving DecidableEq, Repr, Inhabited

/-- `SubTile::get`: reads the window positions `2*(q%2)`, `2*(1-q%2)` and `1`
and indexes `data` with the variant index; an out-of-range read (a Rust
panic) is `none`. -/
def SubTile.get (s : SubTile) (adj : List Bool) : Option TileLayer := do
  let horizontal ← adj.get? (2 * (s.quadrant % 2))
  let vertical ← adj.get? (2 * (1 - s.quadrant % 2))
  let diagonal ← adj.get? 1
  s.data.get? (variantIdx horizontal vertical diagonal)

/-- `TileTexture` struct from `tiles.rs`. -/
structure TileTexture where
  texture : TileLayer
  size : Nat × Nat
  filter : List TilePixel
  layers : List Nat
deriving DecidableEq, Repr, Inhabited

/-- `TileTexture::get_pixel`: wraps each axis modulo `size * TILE_SIZE`
(in `u32` arithmetic), linearizes, and indexes the owned grid.  A Rust
panic — modulo by zero, or an out-of-range index — is `none`. -/
def TileTexture.get_pixel (t : TileTexture) (pos : Nat × Nat) : Option TilePixel :=
  let mx := t.size.1 * TILE_SIZE % u32Mod
  let my := t.size.2 * TILE_SIZE % u32Mod
  if mx = 0 then none
  else if my = 0 then none
  else
    let x := pos.1 % mx
    let y := pos.2 % my
    let idx := (x + (y * TILE_SIZE % u32Mod) * t.size.1 % u32Mod) % u32Mod
    t.texture.colors.get? idx

/-- `BlockMaterial` struct from `tiles.rs`: four sub-tiles (quadrants
NW, NE, SE, SW) and the expanded layer-repeat lookup. -/
structure BlockMaterial where
  sub_tiles : List SubTile
  computed_tile_layers : List Nat
deriving DecidableEq, Repr, Inhabited

/-- `BlockMaterial::get_pixel` from `tiles.rs`.  The quadrant `match` has an
`unreachable!()` arm, modelled as `none`; the slice
`&neighbors[(q*2)..=(q*2+2)]` is modelled by `drop`/`take` (a too-short
slice makes `SubTile.get` return `none`, as the Rust slice panic would). -/
def BlockMaterial.get_pixel (b : BlockMaterial) (sub_layer rpos : Nat)
    (neighbors : List Bool) : Option TilePixel :=
  match b.computed_tile_layers.get? sub_layer with
  | Option.none => some TilePixel.Neutral
  | some _ =>
    let x := rpos % TILE_SIZE
    let y := rpos / TILE_SIZE
    let quadOpt : Option Nat :=
      if x ≤ 9 ∧ y ≤ 9 then some 0
      else if 10 ≤ x ∧ x ≤ 19 ∧ y ≤ 9 then some 1
      else if 10 ≤ x ∧ x ≤ 19 ∧ 10 ≤ y ∧ y ≤ 19 then some 2
      else if x ≤ 9 ∧ 10 ≤ y ∧ y ≤ 19 then some 3
      else none
    do
      let quadrant ← quadOpt
      let x := if x > 9 then x - 10 else x
      let y := if y > 9 then y - 10 else y
      let idx := x + y * HALF_TILE_SIZE
      let st ← b.sub_tiles.get? quadrant
      let layer ← st.get ((neighbors.drop (quadrant * 2)).take 3)
      layer.colors.get? idx

/-- `Tile` struct from `tiles.rs`. -/
structure Tile where
  layers : List TileLayer
  computed_tile_layers : List Nat
  size : Nat × Nat
deriving DecidableEq, Repr, Inhabited

/-- `Tile::get_pixel` from `tiles.rs`: `map_or(Neutral, …)` over the
layer-repeat lookup, then two indexings (panics become `none`). -/
def Tile.get_pixel (t : Tile) (sub_layer rpos : Nat) : Option TilePixel :=
  match t.computed_tile_layers.get? sub_layer with
  | Option.none => some TilePixel.Neutral
  | some tile_layer => do
    let layer ← t.layers.get? tile_layer
    layer.colors.get? rpos

/-- The `unrolled` vector built inside `compute_tile_layers`: for each
`(idx, e)` of the enumerated run-length list, push `idx` onto the vector
`e` times. -/
def unrolledLayers (layer_repeats : List Nat) : List Nat :=
  (layer_repeats.enum.map fun p => List.replicate p.2 p.1).flatten

/-- The closure `get_tile_layer` inside `compute_tile_layers`: index the
unrolled vector (all call sites keep the index in range, so `getD 0`
coincides with the Rust indexing there). -/
def get_tile_layer (sub_layer : Nat) (layer_repeats : List Nat) : Nat :=
  (unrolledLayers layer_repeats).getD sub_layer 0

/-- `compute_tile_layers` from `tiles.rs`. -/
def compute_tile_layers (layer_repeats : List Nat) : List Nat :=
  (List.range layer_repeats.sum).map fun idx => get_tile_layer idx layer_repeats

/-- The per-quadruple classification inside `impl From<&Vec<u8>> for
TileLayer`; the `unreachable!()` arm (and a short final chunk, whose
`pixel[3]` would panic) is `none`. -/
def classifyPixel : List Nat → Option TilePixel
  | [0, 0, 0, 0] => some TilePixel.None
  | [0, 0, 255, 255] => some TilePixel.Up
  | [0, 255, 0, 255] => some TilePixel.Neutral
  | [255, 0, 0, 255] => some TilePixel.Down
  | _ => none

/-- Rust's `chunks(4)`: split into consecutive pieces of four, the last
piece possibly shorter. -/
def chunks4 (l : List Nat) : List (List Nat) :=
  if l = [] then []
  else l.take 4 :: chunks4 (l.drop 4)
termination_by l.length
decreasing_by
  simp only [List.length_drop]
  cases l with
  | nil => simp_all
  | cons a t => simp; omega

/-- `impl From<&Vec<u8>> for TileLayer`: classify each consecutive 4-byte
chunk; any panic is `none`. -/
def tileLayerFromBytes (value : List Nat) : Option (List TilePixel) :=
  (chunks4 value).mapM classifyPixel

/-! ### Helper lemmas about `compute_tile_layers` -/

/-- The flatten-of-replicates shape of the unrolled vector, generalized
over the starting index of the enumeration. -/
def flatAux (r : List Nat) (k : Nat) : List Nat :=
  ((r.enumFrom k).map fun p => List.replicate p.2 p.1).flatten

lemma flatAux_nil (k : Nat) : flatAux [] k = [] := rfl

lemma flatAux_cons (c : Nat) (r : List Nat) (k : Nat) :
    flatAux (c :: r) k = List.replicate c k ++ flatAux r (k + 1) := by
  simp [flatAux, List.enumFrom_cons]

lemma unrolledLayers_eq_flatAux (r : List Nat) : unrolledLayers r = flatAux r 0 := by
  simp [unrolledLayers, flatAux, List.enum]

lemma flatAux_length (r : List Nat) : ∀ k, (flatAux r k).length = r.sum := by
  induction r with
  | nil => intro k; simp [flatAux_nil]
  | cons c r ih => intro k; simp [flatAux_cons, ih]

lemma unrolledLayers_length (r : List Nat) : (unrolledLayers r).length = r.sum := by
  rw [unrolledLayers_eq_flatAux, flatAux_length]

lemma compute_tile_layers_eq_unrolled (r : List Nat) :
    compute_tile_layers r = unrolledLayers r := by
  apply List.ext_getElem
  · simp [compute_tile_layers, unrolledLayers_length]
  · intro i h1 h2
    simp only [compute_tile_layers, List.getElem_map, List.getElem_range,
      get_tile_layer]
    rw [List.getD_eq_getElem]

lemma compute_tile_layers_length (r : List Nat) :
    (compute_tile_layers r).length = r.sum := by
  simp [compute_tile_layers]

lemma flatAux_segment (r : List Nat) :
    ∀ k i, i < r.length →
      ((flatAux r k).drop ((r.take i).sum)).take (r.getD i 0)
        = List.replicate (r.getD i 0) (k + i) := by
  induction r with
  | nil => intro k i hi; simp at hi
  | cons c r ih =>
    intro k i hi
    cases i with
    | zero =>
      simp only [List.take_zero, List.sum_nil, List.drop_zero, List.getD_cons_zero,
        flatAux_cons, Nat.add_zero]
      exact List.take_left' (by simp)
    | succ j =>
      have hj : j < r.length := by simpa using hi
      simp only [List.take_succ_cons, List.sum_cons, List.getD_cons_succ, flatAux_cons]
      have hc : c + (r.take j).sum = (List.replicate c k).length + (r.take j).sum := by
        simp
      rw [hc, List.drop_append, ih (k + 1) j hj]
      congr 1
      omega

lemma flatAux_bounds_sorted (r : List Nat) :
    ∀ k, (∀ x ∈ flatAux r k, k ≤ x ∧ x < k + r.length)
      ∧ (flatAux r k).Pairwise (· ≤ ·) := by
  induction r with
  | nil => intro k; simp [flatAux_nil]
  | cons c r ih =>
    intro k
    constructor
    · intro x hx
      rw [flatAux_cons, List.mem_append] at hx
      rcases hx with hx | hx
      · have := List.eq_of_mem_replicate hx
        subst this
        simp only [List.length_cons]
        omega
      · have := ((ih (k + 1)).1 x hx)
        simp only [List.length_cons]
        omega
    · rw [flatAux_cons, List.pairwise_append]
      refine ⟨?_, (ih (k + 1)).2, ?_⟩
      · rw [List.pairwise_replicate]
        right; exact le_refl k
      · intro a ha b hb
        have ha' := List.eq_of_mem_replicate ha
        have hb' := ((ih (k + 1)).1 b hb).1
        omega

/-! ### Claim theorems -/

/-- C3: `compute_tile_layers` expands run lengths `[c0, c1, …]` into a
lookup array of length `Σ ci` whose first `c0` entries are `0`, next `c1`
entries are `1`, and so on; `[3,2]` gives `[0,0,0,1,1]` and `[]` gives the
empty array on which every slot lookup fails. -/
theorem layer_repeat_expansion (r : List Nat) (i : Nat) (hi : i < r.length) (s : Nat) :
    (compute_tile_layers r).length = r.sum
    ∧ ((compute_tile_layers r).drop ((r.take i).sum)).take (r.getD i 0)
        = List.replicate (r.getD i 0) i
    ∧ compute_tile_layers [3, 2] = [0, 0, 0, 1, 1]
    ∧ compute_tile_layers [] = []
    ∧ (compute_tile_layers []).get? s = none := by
  refine ⟨compute_tile_layers_length r, ?_, by decide, by decide, by simp [compute_tile_layers]⟩
  rw [compute_tile_layers_eq_unrolled, unrolledLayers_eq_flatAux]
  simpa using flatAux_segment r 0 i hi

/-- C3 witness at `r = [3,2]`, `i = 0`, `s = 5`. -/
theorem layer_repeat_expansion_witness :
    (compute_tile_layers [3, 2]).length = [3, 2].sum
    ∧ ((compute_tile_layers [3, 2]).drop (([3, 2].take 0).sum)).take ([3, 2].getD 0 0)
        = List.replicate ([3, 2].getD 0 0) 0
    ∧ compute_tile_layers [3, 2] = [0, 0, 0, 1, 1]
    ∧ compute_tile_layers [] = []
    ∧ (compute_tile_layers []).get? 5 = none :=
  layer_repeat_expansion [3, 2] 0 (by decide) 5

/-- C10: every entry of the expanded lookup is a physical-layer index
strictly below the run-length count, the entries are non-decreasing, and
for a Tile holding at least that many layers every in-range logical slot
resolves to an in-bounds layer index, so the layer access in
`Tile::get_pixel` succeeds. -/
theorem computed_layers_in_bounds (r : List Nat) (t : Tile)
    (hct : t.computed_tile_layers = compute_tile_layers r)
    (hlen : r.length ≤ t.layers.length)
    (x : Nat) (hx : x ∈ compute_tile_layers r)
    (i j : Nat) (hij : i ≤ j) (hj : j < (compute_tile_layers r).length)
    (s : Nat) (hs : s < r.sum) :
    x < r.length
    ∧ (compute_tile_layers r).getD i 0 ≤ (compute_tile_layers r).getD j 0
    ∧ t.computed_tile_layers.get? s = some ((compute_tile_layers r).getD s 0)
    ∧ ((compute_tile_layers r).getD s 0 < t.layers.length
        ∧ (t.layers.get? ((compute_tile_layers r).getD s 0)).isSome) := by
  have hmem : ∀ y ∈ compute_tile_layers r, y < r.length := by
    intro y hy
    rw [compute_tile_layers_eq_unrolled, unrolledLayers_eq_flatAux] at hy
    have := (flatAux_bounds_sorted r 0).1 y hy
    omega
  have hx' := hmem x hx
  have hsorted : (compute_tile_layers r).Pairwise (· ≤ ·) := by
    rw [compute_tile_layers_eq_unrolled, unrolledLayers_eq_flatAux]
    exact (flatAux_bounds_sorted r 0).2
  have hmono : (compute_tile_layers r).getD i 0 ≤ (compute_tile_layers r).getD j 0 := by
    rcases Nat.lt_or_ge i j with hlt | hge
    · have hi : i < (compute_tile_layers r).length := lt_trans hlt hj
      rw [List.getD_eq_getElem _ _ hi, List.getD_eq_getElem _ _ hj]
      exact List.pairwise_iff_getElem.mp hsorted i j hi hj hlt
    · have : i = j := le_antisymm hij hge
      subst this
      exact le_refl _
  have hs' : s < (compute_tile_layers r).length := by
    rwa [compute_tile_layers_length]
  have hget : t.computed_tile_layers.get? s = some ((compute_tile_layers r).getD s 0) := by
    rw [hct, List.get?_eq_get hs', List.getD_eq_getElem _ _ hs']
    simp
  have hbound : (compute_tile_layers r).getD s 0 < t.layers.length := by
    have : (compute_tile_layers r).getD s 0 ∈ compute_tile_layers r := by
      rw [List.getD_eq_getElem _ _ hs']
      exact List.getElem_mem hs'
    exact lt_of_lt_of_le (hmem _ this) hlen
  refine ⟨hx', hmono, hget, hbound, ?_⟩
  rw [List.get?_eq_get hbound]
  simp

/-- C10 witness at `r = [1]` and a one-layer Tile. -/
theorem computed_layers_in_bounds_witness :
    0 < [1].length
    ∧ (compute_tile_layers [1]).getD 0 0 ≤ (compute_tile_layers [1]).getD 0 0
    ∧ (Tile.mk [⟨[]⟩] (compute_tile_layers [1]) (0, 0)).computed_tile_layers.get? 0
        = some ((compute_tile_layers [1]).getD 0 0)
    ∧ ((compute_tile_layers [1]).getD 0 0
          < (Tile.mk [⟨[]⟩] (compute_tile_layers [1]) (0, 0)).layers.length
        ∧ ((Tile.mk [⟨[]⟩] (compute_tile_layers [1]) (0, 0)).layers.get?
            ((compute_tile_layers [1]).getD 0 0)).isSome) :=
  computed_layers_in_bounds [1] (Tile.mk [⟨[]⟩] (compute_tile_layers [1]) (0, 0))
    rfl (by decide) 0 (by decide) 0 0 (le_refl 0) (by decide) 0 (by decide)

/-- C1: `SubTile::get` derives `horizontal = w[2*(q%2)]`,
`vertical = w[2*(1-(q%2))]`, `diagonal = w[1]` and selects variant 4 for
`(t,t,t)`, 3 for `(t,t,f)`, 2 for `(t,f,_)`, 1 for `(f,t,_)` and 0 for both
`(f,f,t)` and `(f,f,f)`; the diagonal-only window and the empty window pick
the same variant 0. -/
theorem adjacency_variant_lookup (q : Nat) (hq : q < 4) (d : List TileLayer)
    (hd : d.length = 5) (w : List Bool) (hw : w.length = 3) :
    SubTile.get ⟨q, d⟩ w
      = d.get? (if w.getD (2 * (q % 2)) false then
                  if w.getD (2 * (1 - q % 2)) false then
                    if w.getD 1 false then 4 else 3
                  else 2
                else if w.getD (2 * (1 - q % 2)) false then 1 else 0)
    ∧ SubTile.get ⟨q, d⟩ [false, true, false] = d.get? 0
    ∧ SubTile.get ⟨q, d⟩ [false, false, false] = d.get? 0 := by
  have h2 : q % 2 = 0 ∨ q % 2 = 1 := Nat.mod_two_eq_zero_or_one q
  refine ⟨?_, ?_, ?_⟩
  · rcases w with _ | ⟨a, w⟩; · simp at hw
    rcases w with _ | ⟨b, w⟩; · simp at hw
    rcases w with _ | ⟨c, w⟩; · simp at hw
    rcases w with _ | ⟨e, w⟩
    · rcases h2 with h2 | h2 <;> cases a <;> cases b <;> cases c <;>
        simp [SubTile.get, h2, variantIdx]
    · simp at hw
  · rcases h2 with h2 | h2 <;> simp [SubTile.get, h2, variantIdx]
  · rcases h2 with h2 | h2 <;> simp [SubTile.get, h2, variantIdx]

/-- C1 witness at quadrant 1 with five distinct variant layers and the
window `[true, false, true]`. -/
theorem adjacency_variant_lookup_witness :
    SubTile.get ⟨1, [⟨[TilePixel.Up]⟩, ⟨[TilePixel.Neutral]⟩, ⟨[TilePixel.Down]⟩,
        ⟨[TilePixel.None]⟩, ⟨[]⟩]⟩ [true, false, true]
      = [⟨[TilePixel.Up]⟩, ⟨[TilePixel.Neutral]⟩, ⟨[TilePixel.Down]⟩,
          ⟨[TilePixel.None]⟩, (⟨[]⟩ : TileLayer)].get?
          (if [true, false, true].getD (2 * (1 % 2)) false then
            if [true, false, true].getD (2 * (1 - 1 % 2)) false then
              if [true, false, true].getD 1 false then 4 else 3
            else 2
          else if [true, false, true].getD (2 * (1 - 1 % 2)) false then 1 else 0)
    ∧ SubTile.get ⟨1, [⟨[TilePixel.Up]⟩, ⟨[TilePixel.Neutral]⟩, ⟨[TilePixel.Down]⟩,
        ⟨[TilePixel.None]⟩, ⟨[]⟩]⟩ [false, true, false]
      = [⟨[TilePixel.Up]⟩, ⟨[TilePixel.Neutral]⟩, ⟨[TilePixel.Down]⟩,
          ⟨[TilePixel.None]⟩, (⟨[]⟩ : TileLayer)].get? 0
    ∧ SubTile.get ⟨1, [⟨[TilePixel.Up]⟩, ⟨[TilePixel.Neutral]⟩, ⟨[TilePixel.Down]⟩,
        ⟨[TilePixel.None]⟩, ⟨[]⟩]⟩ [false, false, false]
      = [⟨[TilePixel.Up]⟩, ⟨[TilePixel.Neutral]⟩, ⟨[TilePixel.Down]⟩,
          ⟨[TilePixel.None]⟩, (⟨[]⟩ : TileLayer)].get? 0 :=
  adjacency_variant_lookup 1 (by decide)
    [⟨[TilePixel.Up]⟩, ⟨[TilePixel.Neutral]⟩, ⟨[TilePixel.Down]⟩,
      ⟨[TilePixel.None]⟩, ⟨[]⟩] (by decide) [true, false, true] (by decide)

/-- C5: a logical slot at or beyond the sum of the run lengths makes
`BlockMaterial::get_pixel` and `Tile::get_pixel` return `Neutral`
immediately, for every position and neighbor state. -/
theorem out_of_range_slot_neutral (r : List Nat) (b : BlockMaterial) (t : Tile)
    (hb : b.computed_tile_layers = compute_tile_layers r)
    (ht : t.computed_tile_layers = compute_tile_layers r)
    (s : Nat) (hs : r.sum ≤ s) (rpos : Nat) (n : List Bool) (rpos2 : Nat) :
    b.get_pixel s rpos n = some TilePixel.Neutral
    ∧ t.get_pixel s rpos2 = some TilePixel.Neutral := by
  have hnone : (compute_tile_layers r).get? s = none := by
    rw [List.get?_eq_none, compute_tile_layers_length]
    exact hs
  constructor
  · simp only [BlockMaterial.get_pixel, hb, hnone]
  · simp only [Tile.get_pixel, ht, hnone]

/-- C5 witness: slot 5 on entities built from run lengths `[3, 2]`. -/
theorem out_of_range_slot_neutral_witness :
    (BlockMaterial.mk [] (compute_tile_layers [3, 2])).get_pixel 5 0 [] = some TilePixel.Neutral
    ∧ (Tile.mk [] (compute_tile_layers [3, 2]) (0, 0)).get_pixel 5 7 = some TilePixel.Neutral :=
  out_of_range_slot_neutral [3, 2] (BlockMaterial.mk [] (compute_tile_layers [3, 2]))
    (Tile.mk [] (compute_tile_layers [3, 2]) (0, 0)) rfl rfl 5 (by decide) 0 [] 7

/-- C9: every `get_pixel` in the embedding is a pure function of the
entity and its explicit arguments: equal arguments give equal results, and
the entity is never modified (the embedding is purely functional, matching
the `&self` receivers in the source). -/
theorem get_pixel_deterministic (b : BlockMaterial) (t : Tile) (tt : TileTexture)
    (s₁ s₂ r₁ r₂ : Nat) (n₁ n₂ : List Bool) (u₁ u₂ v₁ v₂ : Nat) (p₁ p₂ : Nat × Nat)
    (hs : s₁ = s₂) (hr : r₁ = r₂) (hn : n₁ = n₂) (hu : u₁ = u₂) (hv : v₁ = v₂)
    (hp : p₁ = p₂) :
    b.get_pixel s₁ r₁ n₁ = b.get_pixel s₂ r₂ n₂
    ∧ t.get_pixel u₁ v₁ = t.get_pixel u₂ v₂
    ∧ tt.get_pixel p₁ = tt.get_pixel p₂ := by
  subst hs hr hn hu hv hp
  exact ⟨rfl, rfl, rfl⟩

/-- C9 witness at concrete entities and arguments. -/
theorem get_pixel_deterministic_witness :
    (BlockMaterial.mk [] []).get_pixel 0 1 [true] = (BlockMaterial.mk [] []).get_pixel 0 1 [true]
    ∧ (Tile.mk [] [] (0, 0)).get_pixel 2 3 = (Tile.mk [] [] (0, 0)).get_pixel 2 3
    ∧ (TileTexture.mk ⟨[]⟩ (1, 1) [] []).get_pixel (4, 5)
        = (TileTexture.mk ⟨[]⟩ (1, 1) [] []).get_pixel (4, 5) :=
  get_pixel_deterministic (BlockMaterial.mk [] []) (Tile.mk [] [] (0, 0))
    (TileTexture.mk ⟨[]⟩ (1, 1) [] []) 0 0 1 1 [true] [true] 2 2 3 3 (4, 5) (4, 5)
    rfl rfl rfl rfl rfl rfl

/-- A `Tile` with three sentinel physical layers and the layer-repeat
table `[2, 1, 3]`, as in the spec scenario for the repeat table. -/
def sentinelTile : Tile where
  layers := [⟨List.replicate 400 TilePixel.Up⟩, ⟨List.replicate 400 TilePixel.Down⟩,
    ⟨List.replicate 400 TilePixel.None⟩]
  computed_tile_layers := compute_tile_layers [2, 1, 3]
  size := (1, 1)

/-- C8 counterexample: with run lengths `[2, 1, 3]`, logical slot 2
resolves to physical layer 1 (the `Down` sentinel), not to physical layer
0 as the claim states; the expansion is `[0, 0, 1, 2, 2, 2]`, of length 6. -/
theorem repeat_scenario_counterexample :
    sentinelTile.get_pixel 2 0 = some TilePixel.Down
    ∧ sentinelTile.get_pixel 2 0 ≠ sentinelTile.get_pixel 0 0
    ∧ compute_tile_layers [2, 1, 3] = [0, 0, 1, 2, 2, 2] := by
  decide

/-- C8 (amended): with run lengths `[2, 1, 3]` and three sentinel layers,
slots 0 and 1 resolve to physical layer 0, slot 2 to layer 1, slots 3, 4
and 5 to layer 2, and slots 6 and 7 fall back to `Neutral`. -/
theorem repeat_scenario_amended :
    sentinelTile.get_pixel 0 0 = some TilePixel.Up
    ∧ sentinelTile.get_pixel 1 0 = some TilePixel.Up
    ∧ sentinelTile.get_pixel 2 0 = some TilePixel.Down
    ∧ sentinelTile.get_pixel 3 0 = some TilePixel.None
    ∧ sentinelTile.get_pixel 4 0 = some TilePixel.None
    ∧ sentinelTile.get_pixel 5 0 = some TilePixel.None
    ∧ sentinelTile.get_pixel 6 0 = some TilePixel.Neutral
    ∧ sentinelTile.get_pixel 7 0 = some TilePixel.Neutral := by
  decide

lemma chunks4_flatten (ps : List (List Nat)) (h : ∀ px ∈ ps, px.length = 4) :
    chunks4 ps.flatten = ps := by
  induction ps with
  | nil => simp [chunks4]
  | cons px ps ih =>
    have hpx : px.length = 4 := h px (by simp)
    have hne : px ++ ps.flatten ≠ [] := by
      intro hc
      have := congrArg List.length hc
      simp [hpx] at this
    rw [List.flatten_cons]
    rw [chunks4, if_neg hne, ← hpx, List.take_left, List.drop_left]
    rw [ih fun px hpx => h px (List.mem_cons_of_mem _ hpx)]

/-- C4: the pixel classifier turns a buffer of consecutive RGBA
quadruples into one categorical pixel per quadruple, in order, per the
fixed table; any other quadruple is a fatal decode error (`none`), never a
default value. -/
theorem pixel_classifier_spec (ps : List (List Nat)) (hps : ∀ px ∈ ps, px.length = 4)
    (qx : List Nat) (hqx : classifyPixel qx ≠ none) :
    tileLayerFromBytes ps.flatten = ps.mapM classifyPixel
    ∧ ps.flatten.length % 4 = 0
    ∧ classifyPixel [0, 0, 0, 0] = some TilePixel.None
    ∧ classifyPixel [0, 0, 255, 255] = some TilePixel.Up
    ∧ classifyPixel [0, 255, 0, 255] = some TilePixel.Neutral
    ∧ classifyPixel [255, 0, 0, 255] = some TilePixel.Down
    ∧ (qx = [0, 0, 0, 0] ∨ qx = [0, 0, 255, 255]
        ∨ qx = [0, 255, 0, 255] ∨ qx = [255, 0, 0, 255]) := by
  refine ⟨?_, ?_, rfl, rfl, rfl, rfl, ?_⟩
  · rw [tileLayerFromBytes, chunks4_flatten ps hps]
  · rw [List.length_flatten]
    have hrep : ps.map List.length = List.replicate ps.length 4 := by
      rw [List.eq_replicate_iff]
      constructor
      · simp
      · intro b hb
        rcases List.mem_map.mp hb with ⟨px, hpx, rfl⟩
        exact hps px hpx
    rw [hrep, List.sum_replicate, smul_eq_mul]
    omega
  · revert hqx
    unfold classifyPixel
    split
    · intro _; left; rfl
    · intro _; right; left; rfl
    · intro _; right; right; left; rfl
    · intro _; right; right; right; rfl
    · intro h; exact absurd rfl h

/-- C4 witness: a two-quadruple buffer and the quadruple `(0,0,0,0)`. -/
theorem pixel_classifier_spec_witness :
    tileLayerFromBytes [[0, 255, 0, 255], [255, 0, 0, 255]].flatten
      = [[0, 255, 0, 255], [255, 0, 0, 255]].mapM classifyPixel
    ∧ ([[0, 255, 0, 255], [255, 0, 0, 255]] : List (List Nat)).flatten.length % 4 = 0
    ∧ classifyPixel [0, 0, 0, 0] = some TilePixel.None
    ∧ classifyPixel [0, 0, 255, 255] = some TilePixel.Up
    ∧ classifyPixel [0, 255, 0, 255] = some TilePixel.Neutral
    ∧ classifyPixel [255, 0, 0, 255] = some TilePixel.Down
    ∧ (([0, 0, 0, 0] : List Nat) = [0, 0, 0, 0] ∨ ([0, 0, 0, 0] : List Nat) = [0, 0, 255, 255]
        ∨ ([0, 0, 0, 0] : List Nat) = [0, 255, 0, 255]
        ∨ ([0, 0, 0, 0] : List Nat) = [255, 0, 0, 255]) :=
  pixel_classifier_spec [[0, 255, 0, 255], [255, 0, 0, 255]] (by decide)
    [0, 0, 0, 0] (by decide)

/-- C6: `TileTexture::get_pixel` is periodic with period
`(size.x * TILE_SIZE, size.y * TILE_SIZE)` for every integer shift `k`,
negative shifts included, as long as both positions are representable. -/
theorem wrapping_texture_periodic (t : TileTexture)
    (h1 : t.size.1 * TILE_SIZE < u32Mod) (h2 : t.size.2 * TILE_SIZE < u32Mod)
    (x y xs ys : Nat) (k : ℤ)
    (hx : x < u32Mod) (hy : y < u32Mod) (hxs : xs < u32Mod) (hys : ys < u32Mod)
    (hkx : (xs : ℤ) = x + k * (t.size.1 * TILE_SIZE))
    (hky : (ys : ℤ) = y + k * (t.size.2 * TILE_SIZE)) :
    t.get_pixel (xs, ys) = t.get_pixel (x, y) := by
  have key1 : xs % (t.size.1 * TILE_SIZE) = x % (t.size.1 * TILE_SIZE) := by
    have hz : ((xs % (t.size.1 * TILE_SIZE) : Nat) : ℤ)
        = ((x % (t.size.1 * TILE_SIZE) : Nat) : ℤ) := by
      push_cast
      rw [hkx]
      exact Int.add_mul_emod_self
    exact_mod_cast hz
  have key2 : ys % (t.size.2 * TILE_SIZE) = y % (t.size.2 * TILE_SIZE) := by
    have hz : ((ys % (t.size.2 * TILE_SIZE) : Nat) : ℤ)
        = ((y % (t.size.2 * TILE_SIZE) : Nat) : ℤ) := by
      push_cast
      rw [hky]
      exact Int.add_mul_emod_self
    exact_mod_cast hz
  simp only [TileTexture.get_pixel]
  rw [Nat.mod_eq_of_lt h1, Nat.mod_eq_of_lt h2, key1, key2]

/-- C6 witness: a 1×1 texture shifted by `k = 2` periods. -/
theorem wrapping_texture_periodic_witness :
    (TileTexture.mk ⟨List.replicate 400 TilePixel.Down⟩ (1, 1) [] []).get_pixel (45, 47)
      = (TileTexture.mk ⟨List.replicate 400 TilePixel.Down⟩ (1, 1) [] []).get_pixel (5, 7) :=
  wrapping_texture_periodic (TileTexture.mk ⟨List.replicate 400 TilePixel.Down⟩ (1, 1) [] [])
    (by decide) (by decide) 5 7 45 47 2
    (by decide) (by decide) (by decide) (by decide) (by decide) (by decide)

/-- C7: for a texture whose grid satisfies the documented size invariant
(and whose pixel count fits `u32`), `TileTexture::get_pixel` succeeds at
every position: the wrapped, linearized index is always in bounds. -/
theorem wrapping_texture_in_bounds (t : TileTexture)
    (hx1 : 0 < t.size.1) (hy1 : 0 < t.size.2)
    (hlen : t.texture.colors.length = t.size.1 * TILE_SIZE * (t.size.2 * TILE_SIZE))
    (hsmall : t.size.1 * TILE_SIZE * (t.size.2 * TILE_SIZE) ≤ u32Mod)
    (x y : Nat) :
    (t.get_pixel (x, y)).isSome := by
  have hT : TILE_SIZE = 20 := rfl
  have hu : u32Mod = 4294967296 := rfl
  set a := t.size.1 with ha
  set b := t.size.2 with hb2
  rw [hT] at hlen
  rw [hT, hu] at hsmall
  have hP1lt : a * 20 < 4294967296 := by nlinarith
  have hP2lt : b * 20 < 4294967296 := by nlinarith
  have hP1pos : 0 < a * 20 := by omega
  have hP2pos : 0 < b * 20 := by omega
  have hxm : x % (a * 20) < a * 20 := Nat.mod_lt _ hP1pos
  have hym : y % (b * 20) < b * 20 := Nat.mod_lt _ hP2pos
  have hidx : x % (a * 20) + y % (b * 20) * 20 * a < a * 20 * (b * 20) := by
    nlinarith
  have hidxlt : x % (a * 20) + y % (b * 20) * 20 * a < 4294967296 :=
    lt_of_lt_of_le hidx hsmall
  have hin2 : y % (b * 20) * 20 * a < 4294967296 := by omega
  have hin1 : y % (b * 20) * 20 < 4294967296 := by nlinarith
  simp only [TileTexture.get_pixel, hT, hu]
  rw [Nat.mod_eq_of_lt hP1lt, Nat.mod_eq_of_lt hP2lt,
    if_neg (Nat.pos_iff_ne_zero.mp hP1pos), if_neg (Nat.pos_iff_ne_zero.mp hP2pos),
    Nat.mod_eq_of_lt hin1, Nat.mod_eq_of_lt hin2, Nat.mod_eq_of_lt hidxlt]
  have hbound : x % (a * 20) + y % (b * 20) * 20 * a < t.texture.colors.length := by
    rw [hlen]
    exact hidx
  rw [List.get?_eq_get hbound]
  rfl

/-- C7 witness: a well-formed 1×1 texture at position `(123456, 999)`. -/
theorem wrapping_texture_in_bounds_witness :
    ((TileTexture.mk ⟨List.replicate 400 TilePixel.Up⟩ (1, 1) [] []).get_pixel
      (123456, 999)).isSome :=
  wrapping_texture_in_bounds (TileTexture.mk ⟨List.replicate 400 TilePixel.Up⟩ (1, 1) [] [])
    (by decide) (by decide) (by norm_num [TILE_SIZE]) (by norm_num [TILE_SIZE, u32Mod]) 123456 999

/-! ### Helper lemmas for the block-compositor decomposition -/

lemma get?_eq_some_getD {α : Type} (l : List α) (i : Nat) (d : α) (h : i < l.length) :
    l.get? i = some (l.getD i d) := by
  rw [List.get?_eq_get h, List.getD_eq_getElem _ _ h, List.get_eq_getElem]

lemma variantIdx_lt_five (h v d : Bool) : variantIdx h v d < 5 := by
  cases h <;> cases v <;> cases d <;> decide

lemma window_getD (n : List Bool) (q j : Nat) (hj : j < 3) (hn : q * 2 + 3 ≤ n.length) :
    ((n.drop (q * 2)).take 3).getD j false = n.getD (q * 2 + j) false := by
  have h1 : j < (n.drop (q * 2)).length := by
    simp only [List.length_drop]
    omega
  have h2 : q * 2 + j < n.length := by omega
  rw [List.getD_eq_getElem _ _ (by simp [List.length_take, List.length_drop]; omega),
    List.getD_eq_getElem _ _ h2]
  rw [List.getElem_take, List.getElem_drop]

lemma subTile_get_of_len3 (s : SubTile) (w : List Bool) (hw : w.length = 3) :
    s.get w = s.data.get? (variantIdx (w.getD (2 * (s.quadrant % 2)) false)
      (w.getD (2 * (1 - s.quadrant % 2)) false) (w.getD 1 false)) := by
  rcases w with _ | ⟨a, w⟩; · simp at hw
  rcases w with _ | ⟨b, w⟩; · simp at hw
  rcases w with _ | ⟨c, w⟩; · simp at hw
  rcases w with _ | ⟨e, w⟩
  · rcases Nat.mod_two_eq_zero_or_one s.quadrant with h2 | h2 <;>
      simp [SubTile.get, h2]
  · simp at hw

lemma block_quadrant_case (b : BlockMaterial) (n : List Bool) (hn : n.length = 9)
    (q : Nat) (hq : q < 4)
    (hst : b.sub_tiles.length = 4)
    (hquad : ∀ i, i < 4 → (b.sub_tiles.getD i default).quadrant = i)
    (hdata : ∀ i, i < 4 → (b.sub_tiles.getD i default).data.length = 5)
    (hcolors : ∀ i j, i < 4 → j < 5 →
      ((b.sub_tiles.getD i default).data.getD j default).colors.length = 100)
    (lx ly : Nat) (hlx : lx < 10) (hly : ly < 10) :
    (Option.bind (b.sub_tiles.get? q) fun st =>
      Option.bind (st.get ((n.drop (q * 2)).take 3)) fun layer =>
        layer.colors.get? (lx + ly * HALF_TILE_SIZE))
      = some (((b.sub_tiles.getD q default).data.getD
          (variantIdx (n.getD (q * 2 + 2 * (q % 2)) false)
            (n.getD (q * 2 + 2 * (1 - q % 2)) false)
            (n.getD (q * 2 + 1) false)) default).colors.getD
          (lx + ly * 10) TilePixel.Up) := by
  have hw3 : ((n.drop (q * 2)).take 3).length = 3 := by
    simp only [List.length_take, List.length_drop]
    omega
  rw [get?_eq_some_getD b.sub_tiles q default (by omega)]
  simp only [Option.some_bind]
  rw [subTile_get_of_len3 _ _ hw3, hquad q hq]
  rw [window_getD n q (2 * (q % 2)) (by omega) (by omega),
    window_getD n q (2 * (1 - q % 2)) (by omega) (by omega),
    window_getD n q 1 (by omega) (by omega)]
  rw [get?_eq_some_getD _ _ default (by
    rw [hdata q hq]
    exact variantIdx_lt_five _ _ _)]
  simp only [Option.some_bind]
  rw [get?_eq_some_getD _ _ TilePixel.Up (by
    rw [hcolors q _ hq (variantIdx_lt_five _ _ _)]
    have hH : HALF_TILE_SIZE = 10 := rfl
    rw [hH]
    omega)]
  have hH : HALF_TILE_SIZE = 10 := rfl
  rw [hH]

/-- The claim-side description of `BlockMaterial::get_pixel`: decompose
`rpos` into `(x, y) = (rpos mod T, rpos div T)`, pick the quadrant by
comparing both coordinates against the half-width boundary `T/2`
(0 top-left, 1 top-right, 2 bottom-right, 3 bottom-left), hand that
quadrant the contiguous window `n[2q..2q+2]`, select the variant per the
adjacency table, and read the variant grid at
`(x mod T/2) + (y mod T/2)*(T/2)`. -/
def blockPixelSpec (b : BlockMaterial) (rpos : Nat) (n : List Bool) : TilePixel :=
  let x := rpos % TILE_SIZE
  let y := rpos / TILE_SIZE
  let q := if x < TILE_SIZE / 2 then (if y < TILE_SIZE / 2 then 0 else 3)
    else (if y < TILE_SIZE / 2 then 1 else 2)
  let w := [n.getD (2 * q) false, n.getD (2 * q + 1) false, n.getD (2 * q + 2) false]
  let horizontal := w.getD (2 * (q % 2)) false
  let vertical := w.getD (2 * (1 - q % 2)) false
  let diagonal := w.getD 1 false
  (((b.sub_tiles.getD q default).data.getD (variantIdx horizontal vertical diagonal)
      default).colors.getD (x % (TILE_SIZE / 2) + y % (TILE_SIZE / 2) * (TILE_SIZE / 2))
    TilePixel.Up)

/-- C2: for a well-formed block (four sub-tiles in quadrant order, five
variants each, 100-pixel variant grids), every in-range slot, every
`rpos < T*T` and every 9-entry neighbor state, `BlockMaterial::get_pixel`
computes exactly the claimed decomposition `blockPixelSpec`. -/
theorem block_get_pixel_decomposition (b : BlockMaterial)
    (hst : b.sub_tiles.length = 4)
    (hquad : ∀ i, i < 4 → (b.sub_tiles.getD i default).quadrant = i)
    (hdata : ∀ i, i < 4 → (b.sub_tiles.getD i default).data.length = 5)
    (hcolors : ∀ i j, i < 4 → j < 5 →
      ((b.sub_tiles.getD i default).data.getD j default).colors.length = 100)
    (sub_layer : Nat) (hs : sub_layer < b.computed_tile_layers.length)
    (rpos : Nat) (hr : rpos < TILE_SIZE * TILE_SIZE)
    (n : List Bool) (hn : n.length = 9) :
    b.get_pixel sub_layer rpos n = some (blockPixelSpec b rpos n) := by
  have hT : TILE_SIZE = 20 := rfl
  rw [hT] at hr
  have hsl := List.get?_eq_get hs
  have hx : rpos % 20 < 20 := Nat.mod_lt _ (by omega)
  have hy : rpos / 20 < 20 := by omega
  simp only [BlockMaterial.get_pixel, blockPixelSpec, TILE_SIZE, HALF_TILE_SIZE, hsl,
    Option.bind_eq_bind]
  rcases Nat.lt_or_ge (rpos % 20) 10 with hx10 | hx10 <;>
    rcases Nat.lt_or_ge (rpos / 20) 10 with hy10 | hy10
  · -- quadrant 0: top-left
    rw [if_pos (show rpos % 20 ≤ 9 ∧ rpos / 20 ≤ 9 by omega),
      if_pos (show rpos % 20 < 20 / 2 by omega),
      if_pos (show rpos / 20 < 20 / 2 by omega),
      if_neg (show ¬ rpos % 20 > 9 by omega),
      if_neg (show ¬ rpos / 20 > 9 by omega)]
    simp only [Option.some_bind]
    have hcase := block_quadrant_case b n hn 0 (by omega) hst hquad hdata hcolors
      (rpos % 20) (rpos / 20) (by omega) (by omega)
    norm_num [List.getD_cons_zero, List.getD_cons_succ, HALF_TILE_SIZE, TILE_SIZE] at hcase ⊢
    rw [(show rpos % 10 = rpos % 20 by omega), Nat.mod_eq_of_lt hy10]
    exact hcase
  · -- quadrant 3: bottom-left
    rw [if_neg (show ¬ (rpos % 20 ≤ 9 ∧ rpos / 20 ≤ 9) by omega),
      if_neg (show ¬ (10 ≤ rpos % 20 ∧ rpos % 20 ≤ 19 ∧ rpos / 20 ≤ 9) by omega),
      if_neg (show ¬ (10 ≤ rpos % 20 ∧ rpos % 20 ≤ 19 ∧ 10 ≤ rpos / 20 ∧ rpos / 20 ≤ 19)
        by omega),
      if_pos (show rpos % 20 ≤ 9 ∧ 10 ≤ rpos / 20 ∧ rpos / 20 ≤ 19 by omega),
      if_pos (show rpos % 20 < 20 / 2 by omega),
      if_neg (show ¬ rpos / 20 < 20 / 2 by omega),
      if_neg (show ¬ rpos % 20 > 9 by omega),
      if_pos (show rpos / 20 > 9 by omega)]
    simp only [Option.some_bind]
    have hcase := block_quadrant_case b n hn 3 (by omega) hst hquad hdata hcolors
      (rpos % 20) (rpos / 20 - 10) (by omega) (by omega)
    norm_num [List.getD_cons_zero, List.getD_cons_succ, HALF_TILE_SIZE, TILE_SIZE] at hcase ⊢
    rw [(show rpos % 10 = rpos % 20 by omega),
      (show rpos / 20 % 10 = rpos / 20 - 10 by omega)]
    exact hcase
  · -- quadrant 1: top-right
    rw [if_neg (show ¬ (rpos % 20 ≤ 9 ∧ rpos / 20 ≤ 9) by omega),
      if_pos (show 10 ≤ rpos % 20 ∧ rpos % 20 ≤ 19 ∧ rpos / 20 ≤ 9 by omega),
      if_neg (show ¬ rpos % 20 < 20 / 2 by omega),
      if_pos (show rpos / 20 < 20 / 2 by omega),
      if_pos (show rpos % 20 > 9 by omega),
      if_neg (show ¬ rpos / 20 > 9 by omega)]
    simp only [Option.some_bind]
    have hcase := block_quadrant_case b n hn 1 (by omega) hst hquad hdata hcolors
      (rpos % 20 - 10) (rpos / 20) (by omega) (by omega)
    norm_num [List.getD_cons_zero, List.getD_cons_succ, HALF_TILE_SIZE, TILE_SIZE] at hcase ⊢
    rw [(show rpos % 10 = rpos % 20 - 10 by omega), Nat.mod_eq_of_lt hy10]
    exact hcase
  · -- quadrant 2: bottom-right
    rw [if_neg (show ¬ (rpos % 20 ≤ 9 ∧ rpos / 20 ≤ 9) by omega),
      if_neg (show ¬ (10 ≤ rpos % 20 ∧ rpos % 20 ≤ 19 ∧ rpos / 20 ≤ 9) by omega),
      if_pos (show 10 ≤ rpos % 20 ∧ rpos % 20 ≤ 19 ∧ 10 ≤ rpos / 20 ∧ rpos / 20 ≤ 19
        by omega),
      if_neg (show ¬ rpos % 20 < 20 / 2 by omega),
      if_neg (show ¬ rpos / 20 < 20 / 2 by omega),
      if_pos (show rpos % 20 > 9 by omega),
      if_pos (show rpos / 20 > 9 by omega)]
    simp only [Option.some_bind]
    have hcase := block_quadrant_case b n hn 2 (by omega) hst hquad hdata hcolors
      (rpos % 20 - 10) (rpos / 20 - 10) (by omega) (by omega)
    norm_num [List.getD_cons_zero, List.getD_cons_succ, HALF_TILE_SIZE, TILE_SIZE] at hcase ⊢
    rw [(show rpos % 10 = rpos % 20 - 10 by omega),
      (show rpos / 20 % 10 = rpos / 20 - 10 by omega)]
    exact hcase

/-- A concrete well-formed sub-tile for the C2 witness. -/
def witnessSubTile (q : Nat) : SubTile :=
  ⟨q, List.replicate 5 ⟨List.replicate 100 TilePixel.Down⟩⟩

/-- A concrete well-formed block for the C2 witness. -/
def witnessBlock : BlockMaterial :=
  ⟨[witnessSubTile 0, witnessSubTile 1, witnessSubTile 2, witnessSubTile 3],
    compute_tile_layers [1]⟩

/-- C2 witness: the decomposition at slot 0, position 13, all-true
neighbor state. -/
theorem block_get_pixel_decomposition_witness :
    witnessBlock.get_pixel 0 13 (List.replicate 9 true)
      = some (blockPixelSpec witnessBlock 13 (List.replicate 9 true)) :=
  block_get_pixel_decomposition witnessBlock rfl
    (by intro i hi; interval_cases i <;> rfl)
    (by intro i hi; interval_cases i <;> rfl)
    (by intro i j hi hj; interval_cases i <;> interval_cases j <;>
      simp [witnessBlock, witnessSubTile])
    0 (by decide) 13 (by norm_num [TILE_SIZE]) (List.replicate 9 true) (by norm_num)

end Pixed
